import Mathlib

/-!
Verification of the job-search subsystem of a job-board web application.

The development shallowly embeds, directly from the sources:
  * the PostgreSQL stored procedures that perform the search
    (migration files: functions search_jobs and get_companies_for_search,
    plus the search-vector trigger on the jobs table),
  * the client-side filter model and URL codec (features/jobs/types/filters.ts),
  * the service and transformer layers (api/jobService.ts, api/transformer.ts),
  * the search hook's request-deduplication logic (hooks/useJobSearch.ts).

Machine integers are modelled as Int/Nat; timestamps as milliseconds (Int);
the PostgreSQL full-text machinery (to_tsvector / plainto_tsquery / @@) is
kept abstract as function parameters, since it is external to the repository.
JavaScript strings are modelled as Lean strings; where the code splits and
joins on commas, the character-level operations are given explicitly.
-/

/-! ## Enumerations (migration: Create ENUM Types) -/

inductive ExperienceLevel
  | entryLevel | midLevel | senior | manager | director | executive
deriving DecidableEq, Repr

inductive EmploymentType
  | fullTime | partTime | contractor | temporary | internship
deriving DecidableEq, Repr

inductive WorkMode
  | remote | hybrid | onsite
deriving DecidableEq, Repr

inductive Province
  | sanJose | alajuela | heredia | guanacaste | puntarenas | limon | cartago
deriving DecidableEq, Repr

inductive JobFunction
  | technologyEngineering | salesBusinessDevelopment | marketingCommunications
  | operationsLogistics | financeAccounting | humanResources
  | customerSuccessSupport | productManagement | dataAnalytics
  | healthcareMedical | legalCompliance | designCreative
  | administrativeOffice | consultingStrategy | generalManagement | other
deriving DecidableEq, Repr

inductive LocationEnum
  | costaRica | latam
deriving DecidableEq, Repr

inductive LanguageEnum
  | english | spanish
deriving DecidableEq, Repr

/-- Text form of a language, as used for the regconfig cast in the SQL. -/
def LanguageEnum.config : LanguageEnum → String
  | .english => "english"
  | .spanish => "spanish"

/-! ## Database rows (migrations: Create Companies Table, Create Jobs Table) -/

/-- A weighted lexical search document: lexemes tagged with a weight letter,
as produced by setweight(to_tsvector(...), w). -/
abbrev TsVector := List (String × Char)

structure Company where
  id : Nat
  name : String
  is_active : Bool
deriving DecidableEq, Repr

structure Job where
  id : Nat
  company_id : Nat
  title : String
  description : String
  responsibilities : Option (List String)
  skill_must_have : Option (List String)
  skill_nice_have : Option (List String)
  main_technologies : Option (List String)
  benefits : Option (List String)
  experience_level : ExperienceLevel
  employment_type : EmploymentType
  location : LocationEnum
  city : String
  province : Province
  work_mode : WorkMode
  job_function : JobFunction
  language : LanguageEnum
  application_url : String
  is_active : Bool
  created_at : Int
  updated_at : Int
  search_vector : TsVector
deriving DecidableEq, Repr

/-! ## Stable sort

The SQL ORDER BY is modelled by a stable insertion sort: a deterministic
refinement of the database's sort (which specifies no order among rows that
compare equal — the model keeps them in table order). -/

def insertBy (le : α → α → Bool) (x : α) : List α → List α
  | [] => [x]
  | y :: ys => if le x y then x :: y :: ys else y :: insertBy le x ys

def insertionSortBy (le : α → α → Bool) : List α → List α
  | [] => []
  | x :: xs => insertBy le x (insertionSortBy le xs)

theorem mem_insertBy (le : α → α → Bool) (x : α) (l : List α) (a : α) :
    a ∈ insertBy le x l ↔ a = x ∨ a ∈ l := by
  induction l with
  | nil => simp [insertBy]
  | cons y ys ih =>
      simp only [insertBy]
      split
      · simp [List.mem_cons]
      · simp only [List.mem_cons, ih]
        tauto

theorem mem_insertionSortBy (le : α → α → Bool) (l : List α) (a : α) :
    a ∈ insertionSortBy le l ↔ a ∈ l := by
  induction l with
  | nil => simp [insertionSortBy]
  | cons x xs ih =>
      simp [insertionSortBy, mem_insertBy, ih, List.mem_cons]

theorem length_insertBy (le : α → α → Bool) (x : α) (l : List α) :
    (insertBy le x l).length = l.length + 1 := by
  induction l with
  | nil => simp [insertBy]
  | cons y ys ih =>
      simp only [insertBy]
      split <;> simp [ih]

theorem length_insertionSortBy (le : α → α → Bool) (l : List α) :
    (insertionSortBy le l).length = l.length := by
  induction l with
  | nil => rfl
  | cons x xs ih => simp [insertionSortBy, length_insertBy, ih]

theorem pairwise_insertBy (le : α → α → Bool)
    (htrans : ∀ a b c, le a b = true → le b c = true → le a c = true)
    (htot : ∀ a b, le a b || le b a) (x : α) (l : List α)
    (hl : List.Pairwise (fun a b => le a b = true) l) :
    List.Pairwise (fun a b => le a b = true) (insertBy le x l) := by
  induction l with
  | nil => simp [insertBy]
  | cons y ys ih =>
      rcases List.pairwise_cons.mp hl with ⟨hy, hys⟩
      simp only [insertBy]
      split
      · rename_i hxy
        refine List.pairwise_cons.mpr ⟨?_, hl⟩
        intro b hb
        rcases List.mem_cons.mp hb with rfl | hb
        · exact hxy
        · exact htrans x y b hxy (hy b hb)
      · rename_i hxy
        refine List.pairwise_cons.mpr ⟨?_, ih hys⟩
        intro b hb
        rcases (mem_insertBy le x ys b).mp hb with hbx | hb
        · rw [hbx]
          have h := htot x y
          rw [Bool.or_eq_true] at h
          rcases h with h | h
          · exact absurd h hxy
          · exact h
        · exact hy b hb

theorem pairwise_insertionSortBy (le : α → α → Bool)
    (htrans : ∀ a b c, le a b = true → le b c = true → le a c = true)
    (htot : ∀ a b, le a b || le b a) (l : List α) :
    List.Pairwise (fun a b => le a b = true) (insertionSortBy le l) := by
  induction l with
  | nil => simp [insertionSortBy]
  | cons x xs ih =>
      exact pairwise_insertBy le htrans htot x _ ih

/-! ## Stored procedure search_jobs
(migration: Create Search Jobs Function) -/

/-- Parameters of the SQL function search_jobs, with its declared defaults. -/
structure SearchJobsParams where
  search_query : String
  p_limit : Nat := 20
  p_offset : Nat := 0
  p_experience_level : Option (List ExperienceLevel) := none
  p_employment_type : Option (List EmploymentType) := none
  p_work_mode : Option (List WorkMode) := none
  p_province : Option (List Province) := none
  p_job_function : Option (List JobFunction) := none
  p_company : Option (List String) := none
  p_date_from : Option Int := none
  p_date_to : Option Int := none
  p_language : LanguageEnum := .english
deriving DecidableEq, Repr

/-- One SQL array-filter conjunct:
`p IS NULL OR array_length(p, 1) IS NULL OR x = ANY(p)`
(array_length of an empty array is NULL). -/
def arrayFilter [BEq α] (p : Option (List α)) (x : α) : Bool :=
  match p with
  | none => true
  | some l => l.isEmpty || l.contains x

/-- `FROM jobs j JOIN companies c ON j.company_id = c.id`. -/
def joinRows (jobs : List Job) (companies : List Company) :
    List (Job × Company) :=
  jobs.flatMap fun j =>
    (companies.filter fun c => c.id == j.company_id).map fun c => (j, c)

/-- The WHERE clause of search_jobs. The full-text test
`j.search_vector @@ plainto_tsquery(p_language, search_query)` is abstracted
by the parameter tsm (the engine is external to the repository). -/
def searchJobsWhere (tsm : LanguageEnum → String → TsVector → Bool)
    (p : SearchJobsParams) (j : Job) (c : Company) : Bool :=
  j.is_active
    && tsm p.p_language p.search_query j.search_vector
    && j.language == p.p_language
    && arrayFilter p.p_experience_level j.experience_level
    && arrayFilter p.p_employment_type j.employment_type
    && arrayFilter p.p_work_mode j.work_mode
    && arrayFilter p.p_province j.province
    && arrayFilter p.p_job_function j.job_function
    && arrayFilter p.p_company c.name
    && (match p.p_date_from with
        | none => true
        | some d => d ≤ j.created_at)
    && (match p.p_date_to with
        | none => true
        | some d => j.created_at ≤ d)

/-- A row returned by search_jobs: the job columns, the joined company name,
and `COUNT(*) OVER()` (the query-wide match count, computed before
LIMIT/OFFSET). -/
structure SearchRow where
  job : Job
  company_name : String
  total_count : Nat
deriving DecidableEq, Repr

/-- The SQL function search_jobs: filter the join by the WHERE clause,
order by `j.created_at DESC` (no other sort key), then apply OFFSET and
LIMIT. -/
def search_jobs (tsm : LanguageEnum → String → TsVector → Bool)
    (jobs : List Job) (companies : List Company)
    (p : SearchJobsParams) : List SearchRow :=
  let matched := (joinRows jobs companies).filter fun jc =>
    searchJobsWhere tsm p jc.1 jc.2
  let total := matched.length
  let ordered := insertionSortBy
    (fun a b : Job × Company => b.1.created_at ≤ a.1.created_at) matched
  ((ordered.drop p.p_offset).take p.p_limit).map fun jc =>
    { job := jc.1, company_name := jc.2.name, total_count := total }

/-- Deduplication used to model SQL GROUP BY (the grouped result is
re-ordered afterwards, so which duplicate survives is irrelevant). -/
def dedup [BEq α] : List α → List α
  | [] => []
  | x :: xs => if xs.contains x then dedup xs else x :: dedup xs

theorem mem_dedup [BEq α] [LawfulBEq α] (l : List α) (a : α) :
    a ∈ dedup l ↔ a ∈ l := by
  induction l with
  | nil => simp [dedup]
  | cons x xs ih =>
      simp only [dedup]
      split
      · rename_i hc
        rw [ih]
        simp only [List.mem_cons]
        constructor
        · exact Or.inr
        · rintro (rfl | h)
          · exact (List.elem_iff).mp hc
          · exact h
      · simp [List.mem_cons, ih]

/-! ## Stored procedure get_companies_for_search -/

/-- Parameters of get_companies_for_search (same filters as search_jobs minus
the company filter and pagination; the cap defaults to 100). -/
structure GetCompaniesParams where
  search_query : String
  p_limit : Nat := 100
  p_experience_level : Option (List ExperienceLevel) := none
  p_employment_type : Option (List EmploymentType) := none
  p_work_mode : Option (List WorkMode) := none
  p_province : Option (List Province) := none
  p_job_function : Option (List JobFunction) := none
  p_date_from : Option Int := none
  p_date_to : Option Int := none
  p_language : LanguageEnum := .english
deriving DecidableEq, Repr

/-- The WHERE clause of get_companies_for_search: same as search_jobs except
that it also requires `c.is_active = true` and has no company filter. -/
def companiesSearchWhere (tsm : LanguageEnum → String → TsVector → Bool)
    (p : GetCompaniesParams) (j : Job) (c : Company) : Bool :=
  j.is_active
    && c.is_active
    && tsm p.p_language p.search_query j.search_vector
    && j.language == p.p_language
    && arrayFilter p.p_experience_level j.experience_level
    && arrayFilter p.p_employment_type j.employment_type
    && arrayFilter p.p_work_mode j.work_mode
    && arrayFilter p.p_province j.province
    && arrayFilter p.p_job_function j.job_function
    && (match p.p_date_from with
        | none => true
        | some d => d ≤ j.created_at)
    && (match p.p_date_to with
        | none => true
        | some d => j.created_at ≤ d)

/-- The SQL function get_companies_for_search: filter the join, group the
rows by company name with `COUNT(j.id)`, order by job count descending then
name ascending, and cap at p_limit. -/
def get_companies_for_search (tsm : LanguageEnum → String → TsVector → Bool)
    (jobs : List Job) (companies : List Company)
    (p : GetCompaniesParams) : List (String × Nat) :=
  let rows := (joinRows jobs companies).filter fun jc =>
    companiesSearchWhere tsm p jc.1 jc.2
  let names := dedup (rows.map fun jc => jc.2.name)
  let grouped := names.map fun n =>
    (n, (rows.filter fun jc => jc.2.name == n).length)
  (insertionSortBy
      (fun a b : String × Nat =>
        b.2 < a.2 || (a.2 == b.2 && a.1 ≤ b.1)) grouped).take p.p_limit

/-! ## Helper lemmas about the WHERE-clause building blocks -/

theorem arrayFilter_iff [BEq α] [LawfulBEq α] (p : Option (List α)) (x : α) :
    arrayFilter p x = true ↔ ∀ l, p = some l → l ≠ [] → x ∈ l := by
  cases p with
  | none => simp [arrayFilter]
  | some l =>
      cases l with
      | nil => simp [arrayFilter]
      | cons a as =>
          simp [arrayFilter, List.elem_iff]

theorem mem_joinRows (jobs : List Job) (companies : List Company)
    (j : Job) (c : Company) :
    (j, c) ∈ joinRows jobs companies ↔
      j ∈ jobs ∧ c ∈ companies ∧ c.id = j.company_id := by
  simp only [joinRows, List.mem_flatMap, List.mem_map, List.mem_filter]
  constructor
  · rintro ⟨j₂, hj₂, c₂, ⟨hc₂, hid⟩, heq⟩
    injection heq with h₁ h₂
    subst h₁
    subst h₂
    exact ⟨hj₂, hc₂, by simpa using hid⟩
  · rintro ⟨hj, hc, hid⟩
    exact ⟨j, hj, c, ⟨hc, by simp [hid]⟩, rfl⟩

theorem searchJobsWhere_iff (tsm : LanguageEnum → String → TsVector → Bool)
    (p : SearchJobsParams) (j : Job) (c : Company) :
    searchJobsWhere tsm p j c = true ↔
      (j.is_active = true ∧
       tsm p.p_language p.search_query j.search_vector = true ∧
       j.language = p.p_language ∧
       (∀ l, p.p_experience_level = some l → l ≠ [] → j.experience_level ∈ l) ∧
       (∀ l, p.p_employment_type = some l → l ≠ [] → j.employment_type ∈ l) ∧
       (∀ l, p.p_work_mode = some l → l ≠ [] → j.work_mode ∈ l) ∧
       (∀ l, p.p_province = some l → l ≠ [] → j.province ∈ l) ∧
       (∀ l, p.p_job_function = some l → l ≠ [] → j.job_function ∈ l) ∧
       (∀ l, p.p_company = some l → l ≠ [] → c.name ∈ l) ∧
       (∀ d, p.p_date_from = some d → d ≤ j.created_at) ∧
       (∀ d, p.p_date_to = some d → j.created_at ≤ d)) := by
  cases hdf : p.p_date_from <;> cases hdt : p.p_date_to <;>
    simp [searchJobsWhere, Bool.and_eq_true, beq_iff_eq, arrayFilter_iff,
      hdf, hdt, and_assoc]

/-- C1: for every search invocation whose page window covers the whole match
set (offset 0, limit at least the table size), a job row appears in the
result iff the job is active, its language equals the requested language,
its search document matches the parsed query, for every multi-select filter
with at least one selected value the job's corresponding field is one of the
selected values (a NULL or empty value list imposes no constraint; company
is tested through the joined company's name), and a supplied date bound
constrains created-time to the inclusive range. -/
theorem search_jobs_row_membership
    (tsm : LanguageEnum → String → TsVector → Bool)
    (jobs : List Job) (companies : List Company) (p : SearchJobsParams)
    (hoff : p.p_offset = 0)
    (hlim : (joinRows jobs companies).length ≤ p.p_limit) (j : Job) :
    (∃ r ∈ search_jobs tsm jobs companies p, r.job = j) ↔
      (j ∈ jobs ∧ j.is_active = true ∧ j.language = p.p_language ∧
       tsm p.p_language p.search_query j.search_vector = true ∧
       (∀ l, p.p_experience_level = some l → l ≠ [] → j.experience_level ∈ l) ∧
       (∀ l, p.p_employment_type = some l → l ≠ [] → j.employment_type ∈ l) ∧
       (∀ l, p.p_work_mode = some l → l ≠ [] → j.work_mode ∈ l) ∧
       (∀ l, p.p_province = some l → l ≠ [] → j.province ∈ l) ∧
       (∀ l, p.p_job_function = some l → l ≠ [] → j.job_function ∈ l) ∧
       (∃ c ∈ companies, c.id = j.company_id ∧
          (∀ l, p.p_company = some l → l ≠ [] → c.name ∈ l)) ∧
       (∀ d, p.p_date_from = some d → d ≤ j.created_at) ∧
       (∀ d, p.p_date_to = some d → j.created_at ≤ d)) := by
  have hmatched_le :
      ((joinRows jobs companies).filter fun jc =>
        searchJobsWhere tsm p jc.1 jc.2).length ≤ p.p_limit :=
    le_trans (List.length_filter_le _ _) hlim
  simp only [search_jobs, hoff, List.drop_zero]
  rw [List.take_of_length_le
    (by rw [length_insertionSortBy]; exact hmatched_le)]
  constructor
  · rintro ⟨r, hr, hrj⟩
    rcases List.mem_map.mp hr with ⟨jc, hjc, rfl⟩
    rcases jc with ⟨j₂, c⟩
    simp only at hrj
    have hmem := (mem_insertionSortBy _ _ _).mp hjc
    rcases List.mem_filter.mp hmem with ⟨hjoin, hwhere⟩
    rcases (mem_joinRows jobs companies j₂ c).mp hjoin with ⟨hj, hc, hid⟩
    rcases (searchJobsWhere_iff tsm p j₂ c).mp hwhere with
      ⟨h1, h2, h3, h4, h5, h6, h7, h8, h9, h10, h11⟩
    subst hrj
    exact ⟨hj, h1, h3, h2, h4, h5, h6, h7, h8, ⟨c, hc, hid, h9⟩, h10, h11⟩
  · rintro ⟨hj, h1, h3, h2, h4, h5, h6, h7, h8, ⟨c, hc, hid, h9⟩, h10, h11⟩
    refine ⟨{ job := j, company_name := c.name,
              total_count := ((joinRows jobs companies).filter fun jc =>
                searchJobsWhere tsm p jc.1 jc.2).length }, ?_, rfl⟩
    refine List.mem_map.mpr ⟨(j, c), ?_, rfl⟩
    refine (mem_insertionSortBy _ _ _).mpr ?_
    refine List.mem_filter.mpr ⟨(mem_joinRows jobs companies j c).mpr
      ⟨hj, hc, hid⟩, ?_⟩
    exact (searchJobsWhere_iff tsm p j c).mpr
      ⟨h1, h2, h3, h4, h5, h6, h7, h8, h9, h10, h11⟩

/-- Fixed witness data: a full-text matcher that accepts everything, one
active company and one active English job referencing it. -/
def tsmAll : LanguageEnum → String → TsVector → Bool := fun _ _ _ => true

def acmeCompany : Company := { id := 1, name := "Acme", is_active := true }

def devJob : Job :=
  { id := 1, company_id := 1, title := "Engineer", description := "d",
    responsibilities := none, skill_must_have := some ["go"],
    skill_nice_have := none, main_technologies := none, benefits := none,
    experience_level := .senior, employment_type := .fullTime,
    location := .costaRica, city := "SJ", province := .sanJose,
    work_mode := .remote, job_function := .technologyEngineering,
    language := .english, application_url := "u", is_active := true,
    created_at := 1000, updated_at := 1000,
    search_vector := [("engineer", 'A'), ("go", 'B')] }

/-- Witness for C1: on a concrete one-job table both hypotheses hold and the
equivalence puts the job in the result. -/
theorem search_jobs_row_membership_witness :
    ∃ r ∈ search_jobs tsmAll [devJob] [acmeCompany]
        { search_query := "engineer" }, r.job = devJob := by
  refine (search_jobs_row_membership tsmAll [devJob] [acmeCompany]
    { search_query := "engineer" } rfl (by decide) devJob).mpr ?_
  refine ⟨by decide, by decide, by decide, by decide, ?_, ?_, ?_, ?_, ?_,
    ⟨acmeCompany, by decide, by decide, ?_⟩, ?_, ?_⟩ <;>
    intro l h <;> simp_all

/-- An inactive company, referenced by an otherwise matching active job. -/
def ghostCompany : Company := { id := 1, name := "Ghost", is_active := false }

/-- C5 counterexample: search_jobs never tests the company's active flag, so
a row of a search result can reference an inactive company. On this concrete
input the single returned row's company is inactive, refuting the claim that
every search row joins to an active company. -/
theorem search_jobs_inactive_company_counterexample :
    ((search_jobs tsmAll [devJob] [ghostCompany]
        { search_query := "engineer" }).map fun r => r.company_name)
      = ["Ghost"] ∧ ghostCompany.is_active = false := by
  decide

/-- C5 (amended): every entry returned by the company facet operation is an
active company — get_companies_for_search requires c.is_active; the search
operation itself has no such test. -/
theorem get_companies_for_search_active
    (tsm : LanguageEnum → String → TsVector → Bool)
    (jobs : List Job) (companies : List Company) (p : GetCompaniesParams)
    (e : String × Nat)
    (he : e ∈ get_companies_for_search tsm jobs companies p) :
    ∃ c ∈ companies, c.name = e.1 ∧ c.is_active = true := by
  simp only [get_companies_for_search] at he
  have he₂ := (mem_insertionSortBy _ _ _).mp
    (List.mem_of_mem_take he)
  rcases List.mem_map.mp he₂ with ⟨n, hn, rfl⟩
  have hn₂ := (mem_dedup _ _).mp hn
  rcases List.mem_map.mp hn₂ with ⟨jc, hjc, rfl⟩
  rcases List.mem_filter.mp hjc with ⟨hjoin, hwhere⟩
  rcases jc with ⟨j, c⟩
  rcases (mem_joinRows jobs companies j c).mp hjoin with ⟨hj, hc, hid⟩
  refine ⟨c, hc, rfl, ?_⟩
  simp only [companiesSearchWhere, Bool.and_eq_true, and_assoc] at hwhere
  exact hwhere.2.1

/-- Witness for C5's amended theorem: a concrete facet query returns the
entry ("Acme", 1), and the theorem yields its active company. -/
theorem get_companies_for_search_active_witness :
    ∃ c ∈ [acmeCompany], c.name = ("Acme", 1).1 ∧ c.is_active = true :=
  get_companies_for_search_active tsmAll [devJob] [acmeCompany]
    { search_query := "engineer" } ("Acme", 1) (by decide)

/-- Two active jobs with identical creation times, distinct ids. -/
def jobTieA : Job := { devJob with id := 1 }

def jobTieB : Job := { devJob with id := 2 }

/-- C6 counterexample: search_jobs orders only by created_at DESC; rows with
equal creation time keep table order, so they are not ordered by id
descending, and the same row set in a different table order yields a
different result order — the relative order of a tie is not uniquely
determined, and pagination over ties is not deterministic. -/
theorem search_jobs_tie_order_counterexample :
    jobTieA.created_at = jobTieB.created_at ∧
    ((search_jobs tsmAll [jobTieA, jobTieB] [acmeCompany]
        { search_query := "engineer" }).map fun r => r.job.id) = [1, 2] ∧
    ((search_jobs tsmAll [jobTieB, jobTieA] [acmeCompany]
        { search_query := "engineer" }).map fun r => r.job.id) = [2, 1] := by
  decide

/-- C6 (amended): the returned rows are ordered by creation time descending;
no secondary sort key is applied, so rows with equal creation time are in no
specified relative order. -/
theorem search_jobs_sorted_by_created_desc
    (tsm : LanguageEnum → String → TsVector → Bool)
    (jobs : List Job) (companies : List Company) (p : SearchJobsParams) :
    List.Pairwise
      (fun a b : SearchRow => b.job.created_at ≤ a.job.created_at)
      (search_jobs tsm jobs companies p) := by
  simp only [search_jobs]
  refine List.pairwise_map.mpr ?_
  have hsorted := pairwise_insertionSortBy
    (fun a b : Job × Company => b.1.created_at ≤ a.1.created_at)
    (by
      intro a b c h1 h2
      simp only [decide_eq_true_eq] at *
      omega)
    (by
      intro a b
      simp only [Bool.or_eq_true, decide_eq_true_eq]
      omega)
    ((joinRows jobs companies).filter fun jc =>
      searchJobsWhere tsm p jc.1 jc.2)
  have hsub :
      (((insertionSortBy
          (fun a b : Job × Company => b.1.created_at ≤ a.1.created_at)
          ((joinRows jobs companies).filter fun jc =>
            searchJobsWhere tsm p jc.1 jc.2)).drop p.p_offset).take
        p.p_limit).Sublist
        (insertionSortBy
          (fun a b : Job × Company => b.1.created_at ≤ a.1.created_at)
          ((joinRows jobs companies).filter fun jc =>
            searchJobsWhere tsm p jc.1 jc.2)) :=
    (List.take_sublist _ _).trans (List.drop_sublist _ _)
  exact (List.Pairwise.sublist hsub hsorted).imp fun h => by
    simpa using h

/-! ## Search-vector maintenance
(migration: Create Jobs Table with Trigger and Function) -/

/-- Function update_jobs_search_vector: recompute NEW.search_vector as
setweight(to_tsvector(lang, title), A)
|| setweight(to_tsvector(lang, array_to_string(skill_must_have, ' ')), B)
|| setweight(to_tsvector(lang, array_to_string(skill_nice_have, ' ')), C),
with lang = coalesce(language, 'english'). The analyzer to_tsvector is
abstracted by the parameter ttv (config text, input text ↦ lexemes). -/
def update_jobs_search_vector (ttv : String → String → List String)
    (j : Job) : TsVector :=
  let lang := j.language.config
  ((ttv lang j.title).map fun w => (w, 'A'))
    ++ ((ttv lang (match j.skill_must_have with
          | none => ""
          | some l => String.intercalate " " l)).map fun w => (w, 'B'))
    ++ ((ttv lang (match j.skill_nice_have with
          | none => ""
          | some l => String.intercalate " " l)).map fun w => (w, 'C'))

/-- An UPDATE statement on the jobs table: for each column of interest,
whether the SET clause assigns it and, if so, the assigned value. -/
structure JobUpdate where
  title : Option String := none
  description : Option String := none
  skill_must_have : Option (Option (List String)) := none
  skill_nice_have : Option (Option (List String)) := none
  language : Option LanguageEnum := none
deriving Repr

/-- Apply the SET clause of an UPDATE to a row (no trigger involved). -/
def applyJobUpdate (j : Job) (u : JobUpdate) : Job :=
  { j with
    title := u.title.getD j.title,
    description := u.description.getD j.description,
    skill_must_have := u.skill_must_have.getD j.skill_must_have,
    skill_nice_have := u.skill_nice_have.getD j.skill_nice_have,
    language := u.language.getD j.language }

/-- The trigger fires BEFORE UPDATE OF
title, description, skill_must_have, skill_nice_have —
i.e. only when the UPDATE statement assigns one of those columns
(language is not in the list). -/
def triggerFires (u : JobUpdate) : Bool :=
  u.title.isSome || u.description.isSome
    || u.skill_must_have.isSome || u.skill_nice_have.isSome

/-- An UPDATE as executed by the database: apply the SET clause, then run
update_jobs_search_vector on the new row iff the trigger's column list
intersects the assigned columns. -/
def runJobUpdate (ttv : String → String → List String)
    (j : Job) (u : JobUpdate) : Job :=
  let nj := applyJobUpdate j u
  if triggerFires u then
    { nj with search_vector := update_jobs_search_vector ttv nj }
  else
    nj

/-- An INSERT as executed by the database: the trigger fires on every
INSERT. -/
def runJobInsert (ttv : String → String → List String) (j : Job) : Job :=
  { j with search_vector := update_jobs_search_vector ttv j }

/-- An analyzer that records its configuration, so that vectors produced
under different language configurations are distinguishable. -/
def ttvTagged : String → String → List String :=
  fun config text => [config ++ "|" ++ text]

/-- C4: the trigger's UPDATE OF column list omits language, so an UPDATE
that assigns only the language column does not recompute the search
document; the stored vector stays the one computed under the old language
and differs from the recomputation for the current row — the claim that a
language-only update also triggers recomputation fails on this input. -/
theorem language_only_update_leaves_stale_vector :
    (runJobUpdate ttvTagged (runJobInsert ttvTagged devJob)
        { language := some .spanish }).search_vector
      ≠ update_jobs_search_vector ttvTagged
          (applyJobUpdate (runJobInsert ttvTagged devJob)
            { language := some .spanish }) := by
  decide

/-! ## Client-side filter state (features/jobs/types/filters.ts)

TypeScript type annotations are erased at runtime; the filter values that
flow through the URL codec are the strings found in the URL, so the model
stores plain strings. `none` models an absent (undefined) field of a
Partial value. -/

structure JobSearchFilters where
  query : Option String := none
  experienceLevel : Option (List String) := none
  employmentType : Option (List String) := none
  workMode : Option (List String) := none
  province : Option (List String) := none
  jobFunction : Option (List String) := none
  company : Option (List String) := none
  language : Option String := none
  datePreset : Option String := none
deriving DecidableEq, Repr

structure JobSearchPagination where
  page : Option Int := none
  pageSize : Option Int := none
deriving DecidableEq, Repr

def msPerDay : Int := 86400000

structure DateRange where
  dateFrom : Int
  dateTo : Int
deriving DecidableEq, Repr

/-- datePresetToRange, with time in milliseconds: subDays(now, n) is
now - n days and the ISO formatting is the identity in this model.
The switch sends '24hours', 'week' and 'month' to their ranges; 'any' and
every other value fall to the default branch, the last 90 days. -/
def datePresetToRange (now : Int) (preset : String) : DateRange :=
  if preset = "24hours" then { dateFrom := now - 1 * msPerDay, dateTo := now }
  else if preset = "week" then
    { dateFrom := now - 7 * msPerDay, dateTo := now }
  else if preset = "month" then
    { dateFrom := now - 30 * msPerDay, dateTo := now }
  else { dateFrom := now - 90 * msPerDay, dateTo := now }

/-- Client-side mirror of the search_jobs RPC parameter object. -/
structure SearchJobsRpcParams where
  search_query : String
  p_limit : Int
  p_offset : Int
  p_experience_level : Option (List String)
  p_employment_type : Option (List String)
  p_work_mode : Option (List String)
  p_province : Option (List String)
  p_job_function : Option (List String)
  p_company : Option (List String)
  p_language : Option String
  p_date_from : Option Int
  p_date_to : Option Int
deriving DecidableEq, Repr

/-- Models the pruning idiom `xs?.length ? xs : undefined`. -/
def keepNonempty (v : Option (List String)) : Option (List String) :=
  match v with
  | some l => if l.length ≠ 0 then some l else none
  | none => none

/-- toSearchJobsRpcParams: page defaults to 1, pageSize to 20, offset is
(page - 1) * pageSize; the date preset is expanded through
datePresetToRange when truthy; empty multi-select arrays are pruned to
undefined; the language is forwarded as-is. -/
def toSearchJobsRpcParams (now : Int) (filters : JobSearchFilters)
    (pagination : JobSearchPagination) : SearchJobsRpcParams :=
  let page := pagination.page.getD 1
  let pageSize := pagination.pageSize.getD 20
  let offset := (page - 1) * pageSize
  let dateRange : Option DateRange :=
    match filters.datePreset with
    | some d => if d ≠ "" then some (datePresetToRange now d) else none
    | none => none
  { search_query := filters.query.getD "",
    p_limit := pageSize,
    p_offset := offset,
    p_experience_level := keepNonempty filters.experienceLevel,
    p_employment_type := keepNonempty filters.employmentType,
    p_work_mode := keepNonempty filters.workMode,
    p_province := keepNonempty filters.province,
    p_job_function := keepNonempty filters.jobFunction,
    p_company := keepNonempty filters.company,
    p_language := filters.language,
    p_date_from := dateRange.map fun r => r.dateFrom,
    p_date_to := dateRange.map fun r => r.dateTo }

/-- C3: for every filter state whose date preset is 'any' (the value the
filter hook installs by default on mount), the query-executor parameters
carry the concrete date range [now - 90 days, now] — 'any' is expanded like
any other preset, not omitted, so such searches are restricted to jobs
created within the last 90 days. -/
theorem datePreset_any_gives_90_day_range (now : Int)
    (filters : JobSearchFilters) (pagination : JobSearchPagination)
    (h : filters.datePreset = some "any") :
    (toSearchJobsRpcParams now filters pagination).p_date_from
        = some (now - 90 * msPerDay) ∧
    (toSearchJobsRpcParams now filters pagination).p_date_to = some now := by
  simp [toSearchJobsRpcParams, h, datePresetToRange]

/-- Witness for C3 at a concrete filter state and clock. -/
theorem datePreset_any_gives_90_day_range_witness :
    ({ datePreset := some "any" } : JobSearchFilters).datePreset
        = some "any" ∧
    (toSearchJobsRpcParams 0 { datePreset := some "any" } {}).p_date_from
        = some (0 - 90 * msPerDay) ∧
    (toSearchJobsRpcParams 0 { datePreset := some "any" } {}).p_date_to
        = some 0 :=
  ⟨rfl,
   (datePreset_any_gives_90_day_range 0 { datePreset := some "any" } {}
      rfl).1,
   (datePreset_any_gives_90_day_range 0 { datePreset := some "any" } {}
      rfl).2⟩

/-! ## Result transformer: relative dates (api/transformer.ts)

new Date(s).getTime() yields NaN for an unparseable string (it does not
raise, so the try/catch in the source never fires for bad input); NaN
propagates through arithmetic and Math.floor, and every comparison with
NaN is false. A JS number that may be NaN is modelled as Option Int with
none for NaN. -/

abbrev JSNum := Option Int

def jsSub : JSNum → JSNum → JSNum
  | some a, some b => some (a - b)
  | _, _ => none

def jsLtB : JSNum → JSNum → Bool
  | some a, some b => a < b
  | _, _ => false

def jsLeB : JSNum → JSNum → Bool
  | some a, some b => a ≤ b
  | _, _ => false

def jsEqB : JSNum → JSNum → Bool
  | some a, some b => a == b
  | _, _ => false

/-- Math.floor(x / k) for a positive integer k: floor division,
NaN-propagating. -/
def jsFloorDiv (a : JSNum) (k : Int) : JSNum :=
  a.map fun x => Int.fdiv x k

/-- Template interpolation of a JS number ("NaN" prints as NaN). -/
def jsNumToString : JSNum → String
  | none => "NaN"
  | some n => toString n

/-- formatRelativeDate, over the parsed timestamp (none for an invalid
date) and the clock, both in ms. Each branch transliterates the source;
for an invalid date every comparison is false and execution falls through
to the final else. -/
def formatRelativeDate (dateMs : JSNum) (nowMs : Int) : String :=
  let diffInMs := jsSub (some nowMs) dateMs
  if jsLtB diffInMs (some 0) then "just now"
  else
    let diffInMinutes := jsFloorDiv diffInMs (1000 * 60)
    let diffInHours := jsFloorDiv diffInMs (1000 * 60 * 60)
    let diffInDays := jsFloorDiv diffInMs (1000 * 60 * 60 * 24)
    if jsEqB diffInDays (some 0) then
      if jsLeB diffInMinutes (some 1) then "1 minute ago"
      else if jsLtB diffInMinutes (some 60) then
        jsNumToString diffInMinutes ++ " minutes ago"
      else if jsEqB diffInHours (some 1) then "1 hour ago"
      else jsNumToString diffInHours ++ " hours ago"
    else if jsEqB diffInDays (some 1) then "1 day ago"
    else if jsLtB diffInDays (some 7) then
      jsNumToString diffInDays ++ " days ago"
    else if jsLtB diffInDays (some 14) then "1 week ago"
    else if jsLtB diffInDays (some 30) then
      jsNumToString (jsFloorDiv diffInDays 7) ++ " weeks ago"
    else if jsLtB diffInDays (some 60) then "1 month ago"
    else jsNumToString (jsFloorDiv diffInDays 30) ++ " months ago"

/-- C10: for an unparseable timestamp the formatter returns
"NaN months ago", not "unknown": the NaN difference fails every comparison
and falls through to the months branch, and the catch that would return
"unknown" is never reached because an invalid Date does not throw. -/
theorem formatRelativeDate_invalid_date (now : Int) :
    formatRelativeDate none now = "NaN months ago" ∧
    formatRelativeDate none now ≠ "unknown" := by
  constructor
  · rfl
  · intro h
    simp [formatRelativeDate, jsSub, jsLtB, jsEqB, jsLeB, jsFloorDiv,
      jsNumToString] at h

set_option maxHeartbeats 2000000 in
/-- C9: for every parseable timestamp and clock, the relative-date label
follows the fixed breakpoints (expressed on the elapsed milliseconds,
with day counts as floor(ms/day)): negative elapsed gives "just now";
under 2 minutes "1 minute ago"; 2-59 minutes "N minutes ago"; exactly one
whole hour "1 hour ago"; 2-23 whole hours "N hours ago"; one whole day
"1 day ago"; 2-6 days "N days ago"; 7-13 days "1 week ago"; 14-29 days
"floor(days/7) weeks ago"; 30-59 days "1 month ago"; 60 days and beyond
"floor(days/30) months ago". -/
theorem formatRelativeDate_breakpoints (t now : Int) :
    (now - t < 0 → formatRelativeDate (some t) now = "just now") ∧
    (0 ≤ now - t → now - t < 2 * 60000 →
      formatRelativeDate (some t) now = "1 minute ago") ∧
    (2 * 60000 ≤ now - t → now - t < 3600000 →
      formatRelativeDate (some t) now
        = toString (Int.fdiv (now - t) 60000) ++ " minutes ago") ∧
    (3600000 ≤ now - t → now - t < 2 * 3600000 →
      formatRelativeDate (some t) now = "1 hour ago") ∧
    (2 * 3600000 ≤ now - t → now - t < 86400000 →
      formatRelativeDate (some t) now
        = toString (Int.fdiv (now - t) 3600000) ++ " hours ago") ∧
    (86400000 ≤ now - t → now - t < 2 * 86400000 →
      formatRelativeDate (some t) now = "1 day ago") ∧
    (2 * 86400000 ≤ now - t → now - t < 7 * 86400000 →
      formatRelativeDate (some t) now
        = toString (Int.fdiv (now - t) 86400000) ++ " days ago") ∧
    (7 * 86400000 ≤ now - t → now - t < 14 * 86400000 →
      formatRelativeDate (some t) now = "1 week ago") ∧
    (14 * 86400000 ≤ now - t → now - t < 30 * 86400000 →
      formatRelativeDate (some t) now
        = toString (Int.fdiv (Int.fdiv (now - t) 86400000) 7)
            ++ " weeks ago") ∧
    (30 * 86400000 ≤ now - t → now - t < 60 * 86400000 →
      formatRelativeDate (some t) now = "1 month ago") ∧
    (60 * 86400000 ≤ now - t →
      formatRelativeDate (some t) now
        = toString (Int.fdiv (Int.fdiv (now - t) 86400000) 30)
            ++ " months ago") := by
  have ed1 : ∀ x : Int, Int.fdiv x (1000 * 60) = x / 60000 := fun x => by
    rw [Int.fdiv_eq_ediv _ (by norm_num)]
    norm_num
  have ed2 : ∀ x : Int, Int.fdiv x (1000 * 60 * 60) = x / 3600000 :=
    fun x => by
      rw [Int.fdiv_eq_ediv _ (by norm_num)]
      norm_num
  have ed3 : ∀ x : Int, Int.fdiv x (1000 * 60 * 60 * 24) = x / 86400000 :=
    fun x => by
      rw [Int.fdiv_eq_ediv _ (by norm_num)]
      norm_num
  have ed1b : ∀ x : Int, Int.fdiv x 60000 = x / 60000 := fun x =>
    Int.fdiv_eq_ediv _ (by norm_num)
  have ed2b : ∀ x : Int, Int.fdiv x 3600000 = x / 3600000 := fun x =>
    Int.fdiv_eq_ediv _ (by norm_num)
  have ed3b : ∀ x : Int, Int.fdiv x 86400000 = x / 86400000 := fun x =>
    Int.fdiv_eq_ediv _ (by norm_num)
  have ed7 : ∀ x : Int, Int.fdiv x 7 = x / 7 := fun x =>
    Int.fdiv_eq_ediv _ (by norm_num)
  have ed30 : ∀ x : Int, Int.fdiv x 30 = x / 30 := fun x =>
    Int.fdiv_eq_ediv _ (by norm_num)
  refine ⟨?_, ?_, ?_, ?_, ?_, ?_, ?_, ?_, ?_, ?_, ?_⟩ <;>
    (intro h1
     try intro h2) <;>
    (simp only [formatRelativeDate, jsSub, jsLtB, jsLeB, jsEqB, jsFloorDiv,
      jsNumToString, Option.map_some', beq_iff_eq, decide_eq_true_eq,
      ed1, ed2, ed3, ed1b, ed2b, ed3b, ed7, ed30]
     split_ifs <;>
      first
        | rfl
        | omega)

/-- Witness for C9 at the spec's concrete scenarios: 90 seconds in the past
renders "1 minute ago", exactly 25 hours renders "1 day ago", 10 days
renders "1 week ago", a 5-second-future timestamp renders "just now". -/
theorem formatRelativeDate_breakpoints_witness :
    formatRelativeDate (some 0) 90000 = "1 minute ago" ∧
    formatRelativeDate (some 0) (25 * 3600000) = "1 day ago" ∧
    formatRelativeDate (some 0) (10 * 86400000) = "1 week ago" ∧
    formatRelativeDate (some 5000) 0 = "just now" :=
  ⟨(formatRelativeDate_breakpoints 0 90000).2.1 (by norm_num)
      (by norm_num),
   (formatRelativeDate_breakpoints 0 (25 * 3600000)).2.2.2.2.2.1
      (by norm_num) (by norm_num),
   (formatRelativeDate_breakpoints 0 (10 * 86400000)).2.2.2.2.2.2.2.1
      (by norm_num) (by norm_num),
   (formatRelativeDate_breakpoints 5000 0).1 (by norm_num)⟩

/-! ## Result transformer and job service
(api/transformer.ts, api/jobService.ts) -/

structure FrontendJob where
  id : String
  title : String
  company : String
  companyId : String
  description : String
  responsibilities : List String
  benefits : List String
  applicationUrl : String
  experience : ExperienceLevel
  jobType : EmploymentType
  location : LocationEnum
  workMode : WorkMode
  province : Province
  jobFunction : JobFunction
  language : LanguageEnum
  city : String
  mustHave : List String
  niceToHave : List String
  technologies : List String
  postedDate : String
deriving DecidableEq, Repr

/-- transformJob: rename and reshape the raw row, defaulting null arrays to
empty lists; the posted-date label comes from formatRelativeDate (database
timestamps parse, so the parsed value is present). -/
def transformJob (now : Int) (r : SearchRow) : FrontendJob :=
  { id := toString r.job.id,
    title := r.job.title,
    company := r.company_name,
    companyId := toString r.job.company_id,
    description := r.job.description,
    responsibilities := r.job.responsibilities.getD [],
    benefits := r.job.benefits.getD [],
    applicationUrl := r.job.application_url,
    experience := r.job.experience_level,
    jobType := r.job.employment_type,
    location := r.job.location,
    workMode := r.job.work_mode,
    province := r.job.province,
    jobFunction := r.job.job_function,
    language := r.job.language,
    city := r.job.city,
    mustHave := r.job.skill_must_have.getD [],
    niceToHave := r.job.skill_nice_have.getD [],
    technologies := r.job.main_technologies.getD [],
    postedDate := formatRelativeDate (some r.job.created_at) now }

def transformJobs (now : Int) (rows : List SearchRow) : List FrontendJob :=
  rows.map (transformJob now)

structure PaginationState where
  total : Int
  limit : Int
  offset : Int
  hasMore : Bool
deriving DecidableEq, Repr

structure SearchResponse where
  jobs : List FrontendJob
  pagination : PaginationState
deriving DecidableEq, Repr

def transformSearchResponse (now : Int) (jobs : List SearchRow)
    (totalCount : Int) (page pageSize : Int) : SearchResponse :=
  let offset := (page - 1) * pageSize
  let hasMore := offset + jobs.length < totalCount
  { jobs := transformJobs now jobs,
    pagination :=
      { total := totalCount, limit := pageSize, offset := offset,
        hasMore := hasMore } }

def createEmptySearchResponse (page pageSize : Int) : SearchResponse :=
  { jobs := [],
    pagination :=
      { total := 0, limit := pageSize, offset := (page - 1) * pageSize,
        hasMore := false } }

/-- The typed error of lib/supabase/errors (only its shape matters here). -/
structure SupabaseAppError where
  errType : String
  message : String
deriving DecidableEq, Repr

/-- Shape of the repository's result: raw rows, window-function total, and
an optional typed error (the repository itself never throws). -/
structure JobSearchRepositoryResult where
  data : List SearchRow
  totalCount : Int
  error : Option SupabaseAppError
deriving DecidableEq, Repr

structure JobSearchResponse where
  jobs : List FrontendJob
  pagination : PaginationState
  error : Option SupabaseAppError := none
deriving DecidableEq, Repr

/-- jobService.searchJobs: convert filters to RPC parameters, execute the
repository call (passed as a function), and on error return the empty
response paired with the error; on success transform the rows. -/
def searchJobs (repo : SearchJobsRpcParams → JobSearchRepositoryResult)
    (now : Int) (filters : JobSearchFilters)
    (pagination : JobSearchPagination) : JobSearchResponse :=
  let page := pagination.page.getD 1
  let pageSize := pagination.pageSize.getD 20
  let rpcParams := toSearchJobsRpcParams now filters
    { page := some page, pageSize := some pageSize }
  let result := repo rpcParams
  match result.error with
  | some e =>
      let empty := createEmptySearchResponse page pageSize
      { jobs := empty.jobs, pagination := empty.pagination,
        error := some e }
  | none =>
      let ok := transformSearchResponse now result.data result.totalCount
        page pageSize
      { jobs := ok.jobs, pagination := ok.pagination, error := none }

/-- C8: whenever the underlying query execution reports an error, the
search operation returns (it never throws — it is a total function) the
empty job list with a zero-total pagination block, hasMore false, paired
with the typed error. -/
theorem searchJobs_error_yields_empty_page
    (repo : SearchJobsRpcParams → JobSearchRepositoryResult) (now : Int)
    (filters : JobSearchFilters) (pagination : JobSearchPagination)
    (e : SupabaseAppError)
    (herr : (repo (toSearchJobsRpcParams now filters
        { page := some (pagination.page.getD 1),
          pageSize := some (pagination.pageSize.getD 20) })).error
      = some e) :
    searchJobs repo now filters pagination =
      { jobs := [],
        pagination :=
          { total := 0, limit := pagination.pageSize.getD 20,
            offset := (pagination.page.getD 1 - 1)
              * pagination.pageSize.getD 20,
            hasMore := false },
        error := some e } := by
  simp [searchJobs, herr, createEmptySearchResponse]

def boomError : SupabaseAppError :=
  { errType := "QUERY_ERROR", message := "boom" }

def repoAlwaysFails :
    SearchJobsRpcParams → JobSearchRepositoryResult := fun _ =>
  { data := [], totalCount := 0, error := some boomError }

/-- Witness for C8 with a concretely failing executor. -/
theorem searchJobs_error_yields_empty_page_witness :
    searchJobs repoAlwaysFails 0 {} {} =
      { jobs := [],
        pagination :=
          { total := 0, limit := 20, offset := 0, hasMore := false },
        error := some boomError } := by
  have h := searchJobs_error_yields_empty_page repoAlwaysFails 0 {} {}
    boomError rfl
  simpa using h

/-! ## useJobSearch: request deduplication (hooks/useJobSearch.ts) -/

structure SearchParameters where
  filters : JobSearchFilters
  page : Int
  pageSize : Int
deriving DecidableEq, Repr

/-- The tuple built by createQueryKey from the tracked parameters: the
query, every filter value, and the pagination. The source compares keys by
JSON.stringify, which on these tuples coincides with structural equality;
none stands for the ['jobs','search','empty'] key. -/
structure QueryKey where
  query : Option String
  experienceLevel : Option (List String)
  employmentType : Option (List String)
  workMode : Option (List String)
  province : Option (List String)
  jobFunction : Option (List String)
  language : Option String
  company : Option (List String)
  datePreset : Option String
  page : Int
  pageSize : Int
deriving DecidableEq, Repr

def createQueryKey : Option SearchParameters → Option QueryKey
  | none => none
  | some p =>
      some { query := p.filters.query,
             experienceLevel := p.filters.experienceLevel,
             employmentType := p.filters.employmentType,
             workMode := p.filters.workMode,
             province := p.filters.province,
             jobFunction := p.filters.jobFunction,
             language := p.filters.language,
             company := p.filters.company,
             datePreset := p.filters.datePreset,
             page := p.page, pageSize := p.pageSize }

structure SearchState where
  jobs : List FrontendJob
  pagination : Option PaginationState
deriving DecidableEq, Repr

/-- The hook's state: the tracked search parameters, the held result, and
a counter of query-executor invocations (fetchQuery calls). -/
structure HookState where
  searchParams : Option SearchParameters := none
  data : Option SearchState := none
  fetchCount : Nat := 0
deriving DecidableEq, Repr

/-- JS String.prototype.trim: strip whitespace from both ends (defined on
the character list so that it evaluates by kernel reduction). -/
def jsTrim (s : String) : String :=
  ⟨(((s.data.dropWhile Char.isWhitespace).reverse).dropWhile
      Char.isWhitespace).reverse⟩

/-- The search callback: an empty trimmed query resets and short-circuits;
otherwise the criteria are normalized (trimmed query, defaulted
pagination) and if their key equals the key of the currently tracked
parameters the held data is returned with no executor invocation;
otherwise the executor runs once and the state is updated. -/
def hookSearch (exec : SearchParameters → SearchState) (st : HookState)
    (filters : JobSearchFilters) (pagination : JobSearchPagination) :
    SearchState × HookState :=
  let emptyState : SearchState := { jobs := [], pagination := none }
  let trimmed := jsTrim (filters.query.getD "")
  if trimmed = "" then
    (emptyState, { st with searchParams := none })
  else
    let normalizedFilters := { filters with query := some trimmed }
    let newParams : SearchParameters :=
      { filters := normalizedFilters,
        page := pagination.page.getD 1,
        pageSize := pagination.pageSize.getD 20 }
    if createQueryKey (some newParams) = createQueryKey st.searchParams
    then
      (st.data.getD emptyState, st)
    else
      let result := exec newParams
      (result,
       { searchParams := some newParams, data := some result,
         fetchCount := st.fetchCount + 1 })

/-- C7: submitting criteria identical to the currently tracked request
performs no additional executor invocation and returns the already-held
result: the second of two identical submissions leaves the invocation
count unchanged and returns the first submission's result, and when the
first submission was fresh it invoked the executor exactly once. -/
theorem hookSearch_dedup (exec : SearchParameters → SearchState)
    (st : HookState) (filters : JobSearchFilters)
    (pagination : JobSearchPagination)
    (hq : jsTrim (filters.query.getD "") ≠ "") :
    (hookSearch exec (hookSearch exec st filters pagination).2 filters
        pagination).2.fetchCount
      = (hookSearch exec st filters pagination).2.fetchCount ∧
    (hookSearch exec (hookSearch exec st filters pagination).2 filters
        pagination).1
      = (hookSearch exec st filters pagination).1 ∧
    (createQueryKey (some
        { filters := { filters with
            query := some (jsTrim (filters.query.getD "")) },
          page := pagination.page.getD 1,
          pageSize := pagination.pageSize.getD 20 })
        ≠ createQueryKey st.searchParams →
      (hookSearch exec st filters pagination).2.fetchCount
        = st.fetchCount + 1) := by
  by_cases hkey : createQueryKey (some
      { filters := { filters with
          query := some (jsTrim (filters.query.getD "")) },
        page := pagination.page.getD 1,
        pageSize := pagination.pageSize.getD 20 })
      = createQueryKey st.searchParams
  · simp [hookSearch, hq, hkey]
  · simp [hookSearch, hq, hkey]

def execEmpty : SearchParameters → SearchState := fun _ =>
  { jobs := [], pagination := none }

/-- Witness for C7: two identical submissions from the initial state cause
exactly one executor invocation. -/
theorem hookSearch_dedup_witness :
    (jsTrim "go" ≠ "") ∧
    (hookSearch execEmpty
        (hookSearch execEmpty {} { query := some "go" } {}).2
        { query := some "go" } {}).2.fetchCount
      = (hookSearch execEmpty {} { query := some "go" } {}).2.fetchCount ∧
    (hookSearch execEmpty {} { query := some "go" } {}).2.fetchCount = 1 := by
  have h := hookSearch_dedup execEmpty {} { query := some "go" } {}
    (by decide)
  refine ⟨by decide, h.1, ?_⟩
  have h3 := h.2.2 (by decide)
  simpa using h3

/-! ## URL codec (features/jobs/types/filters.ts)

URLSearchParams is modelled as an association list: set removes the other
entries for the key and stores the value, get returns the first value for
the key. Array.prototype.join(',') and String.prototype.split(',') are
given at the character level so that they evaluate by kernel reduction. -/

abbrev URLParams := List (String × String)

def paramsSet (ps : URLParams) (k v : String) : URLParams :=
  (ps.filter fun e => !(e.1 == k)) ++ [(k, v)]

def paramsGet (ps : URLParams) (k : String) : Option String :=
  (ps.find? fun e => e.1 == k).map fun e => e.2

def joinCommaChars : List (List Char) → List Char
  | [] => []
  | [g] => g
  | g :: gs => g ++ ',' :: joinCommaChars gs

/-- Array.prototype.join(','). -/
def joinComma (l : List String) : String :=
  ⟨joinCommaChars (l.map String.data)⟩

def splitCommaChars : List Char → List (List Char)
  | [] => [[]]
  | c :: cs =>
      if c = ',' then [] :: splitCommaChars cs
      else
        match splitCommaChars cs with
        | [] => [[c]]
        | g :: gs => (c :: g) :: gs

/-- String.prototype.split(','). -/
def splitComma (s : String) : List String :=
  (splitCommaChars s.data).map fun cs => ⟨cs⟩

/-- One multi-select block of filtersToURLParams:
`if (filters.x?.length) params.set(key, filters.x.join(','))`. -/
def setMultiParam (ps : URLParams) (k : String)
    (v : Option (List String)) : URLParams :=
  match v with
  | some l => if l.length ≠ 0 then paramsSet ps k (joinComma l) else ps
  | none => ps

/-- A truthiness-guarded single value:
`if (filters.x) params.set(key, filters.x)` (used for q and lang). -/
def setTruthyParam (ps : URLParams) (k : String) (v : Option String) :
    URLParams :=
  match v with
  | some s => if s ≠ "" then paramsSet ps k s else ps
  | none => ps

/-- The date-preset block: set only when truthy and different from
'any'. -/
def setDateParam (ps : URLParams) (v : Option String) : URLParams :=
  match v with
  | some d => if d ≠ "" ∧ d ≠ "any" then paramsSet ps "date" d else ps
  | none => ps

/-- filtersToURLParams: query under q, the six multi-select filters
comma-joined under their short keys, language under lang whenever truthy,
the date preset under date unless it is 'any'. -/
def filtersToURLParams (filters : JobSearchFilters) : URLParams :=
  let ps : URLParams := []
  let ps := setTruthyParam ps "q" filters.query
  let ps := setMultiParam ps "exp" filters.experienceLevel
  let ps := setMultiParam ps "type" filters.employmentType
  let ps := setMultiParam ps "mode" filters.workMode
  let ps := setMultiParam ps "prov" filters.province
  let ps := setMultiParam ps "func" filters.jobFunction
  let ps := setMultiParam ps "company" filters.company
  let ps := setTruthyParam ps "lang" filters.language
  let ps := setDateParam ps filters.datePreset
  ps

/-- params.get followed by the JS truthiness test `if (v)` of the decoder
blocks. -/
def getTruthy (ps : URLParams) (k : String) : Option String :=
  match paramsGet ps k with
  | some v => if v ≠ "" then some v else none
  | none => none

/-- urlParamsToFilters: each truthiness-guarded block of the source sets
one field — comma-split for the multi-select keys, the raw value for q,
lang and date. -/
def urlParamsToFilters (ps : URLParams) : JobSearchFilters :=
  { query := getTruthy ps "q",
    experienceLevel := (getTruthy ps "exp").map splitComma,
    employmentType := (getTruthy ps "type").map splitComma,
    workMode := (getTruthy ps "mode").map splitComma,
    province := (getTruthy ps "prov").map splitComma,
    jobFunction := (getTruthy ps "func").map splitComma,
    company := (getTruthy ps "company").map splitComma,
    language := getTruthy ps "lang",
    datePreset := getTruthy ps "date" }

def dropEmptyList : Option (List String) → Option (List String)
  | some [] => none
  | v => v

/-- Modelled from the spec: normalize drops empty multi-select arrays and
single-select values equal to their implicit default — language 'english'
and date preset 'any' (stated for comparison with the codec). -/
def specNormalize (x : JobSearchFilters) : JobSearchFilters :=
  { query := x.query,
    experienceLevel := dropEmptyList x.experienceLevel,
    employmentType := dropEmptyList x.employmentType,
    workMode := dropEmptyList x.workMode,
    province := dropEmptyList x.province,
    jobFunction := dropEmptyList x.jobFunction,
    company := dropEmptyList x.company,
    language := if x.language = some "english" then none else x.language,
    datePreset :=
      if x.datePreset = some "any" then none else x.datePreset }

/-- The normalization the codec actually performs: empty arrays and the
'any' date preset are dropped, but a present language is kept even when it
equals the default 'english'. -/
def codecNormalize (x : JobSearchFilters) : JobSearchFilters :=
  { query := x.query,
    experienceLevel := dropEmptyList x.experienceLevel,
    employmentType := dropEmptyList x.employmentType,
    workMode := dropEmptyList x.workMode,
    province := dropEmptyList x.province,
    jobFunction := dropEmptyList x.jobFunction,
    company := dropEmptyList x.company,
    language := x.language,
    datePreset :=
      if x.datePreset = some "any" then none else x.datePreset }

def engFilters : JobSearchFilters :=
  { query := some "engineer", language := some "english" }

/-- C2 counterexample: encode emits the lang key even when the language
equals the default 'english' (the source guards only on truthiness, not on
the default), so decode of the encoded form keeps language = english while
the spec's normalize drops it — the round-trip law as claimed fails. -/
theorem urlCodec_default_language_counterexample :
    paramsGet (filtersToURLParams engFilters) "lang" = some "english" ∧
    urlParamsToFilters (filtersToURLParams engFilters)
      ≠ specNormalize engFilters := by
  decide

theorem splitCommaChars_no_comma (g : List Char) (h : ',' ∉ g) :
    splitCommaChars g = [g] := by
  induction g with
  | nil => rfl
  | cons c cs ih =>
      have hc : ¬(c = ',') := fun heq => h (heq ▸ List.mem_cons_self c cs)
      have hcs : ',' ∉ cs := fun hm => h (List.mem_cons_of_mem c hm)
      simp only [splitCommaChars, if_neg hc, ih hcs]

theorem splitCommaChars_append (g rest : List Char) (h : ',' ∉ g) :
    splitCommaChars (g ++ ',' :: rest) = g :: splitCommaChars rest := by
  induction g with
  | nil => simp [splitCommaChars]
  | cons c cs ih =>
      have hc : ¬(c = ',') := fun heq => h (heq ▸ List.mem_cons_self c cs)
      have hcs : ',' ∉ cs := fun hm => h (List.mem_cons_of_mem c hm)
      simp only [List.cons_append, splitCommaChars, if_neg hc,
        List.append_eq]
      rw [ih hcs]

theorem splitCommaChars_joinCommaChars (gs : List (List Char))
    (hne : gs ≠ []) (h : ∀ g ∈ gs, ',' ∉ g) :
    splitCommaChars (joinCommaChars gs) = gs := by
  induction gs with
  | nil => exact absurd rfl hne
  | cons g t ih =>
      cases t with
      | nil =>
          simp only [joinCommaChars]
          exact splitCommaChars_no_comma g (h g (List.mem_cons_self g []))
      | cons g₂ t₂ =>
          have hg : ',' ∉ g := h g (List.mem_cons_self g _)
          have ht : ∀ e ∈ g₂ :: t₂, ',' ∉ e := fun e he =>
            h e (List.mem_cons_of_mem g he)
          simp only [joinCommaChars, splitCommaChars_append _ _ hg,
            ih (by simp) ht]

theorem splitComma_joinComma (l : List String) (hne : l ≠ [])
    (h : ∀ s ∈ l, ∀ c ∈ s.data, c ≠ ',') :
    splitComma (joinComma l) = l := by
  unfold splitComma joinComma
  rw [show (String.mk (joinCommaChars (l.map String.data))).data
      = joinCommaChars (l.map String.data) from rfl]
  rw [splitCommaChars_joinCommaChars (l.map String.data)
    (fun hm => hne (List.map_eq_nil_iff.mp hm))
    (by
      intro g hg
      rcases List.mem_map.mp hg with ⟨s, hs, rfl⟩
      intro hc
      exact h s hs ',' hc rfl)]
  rw [List.map_map]
  exact List.map_id l

theorem joinComma_ne_empty (l : List String) (hne : l ≠ [])
    (h : ∀ s ∈ l, s ≠ "") : joinComma l ≠ "" := by
  intro heq
  have hd : (joinComma l).data = [] := by rw [heq]
  unfold joinComma at hd
  rw [show (String.mk (joinCommaChars (l.map String.data))).data
      = joinCommaChars (l.map String.data) from rfl] at hd
  cases l with
  | nil => exact hne rfl
  | cons s t =>
      cases t with
      | nil =>
          simp only [List.map, joinCommaChars] at hd
          exact h s (List.mem_cons_self s []) (by
            cases s with
            | mk d => cases hd; rfl)
      | cons s₂ t₂ =>
          simp only [List.map, joinCommaChars] at hd
          rcases List.append_eq_nil.mp hd with ⟨-, h2⟩
          exact List.cons_ne_nil _ _ h2

theorem paramsGet_paramsSet_self (ps : URLParams) (k v : String) :
    paramsGet (paramsSet ps k v) k = some v := by
  unfold paramsSet paramsGet
  induction ps with
  | nil => simp [List.find?]
  | cons e es ih =>
      rw [List.filter_cons]
      by_cases h : e.1 = k
      · rw [if_neg (by simp [h])]
        exact ih
      · rw [if_pos (by simp [h]), List.cons_append,
          List.find?_cons_of_neg _ (by simp [h])]
        exact ih

theorem paramsGet_paramsSet_other (ps : URLParams) (k k₂ v : String)
    (h : k₂ ≠ k) :
    paramsGet (paramsSet ps k v) k₂ = paramsGet ps k₂ := by
  unfold paramsSet paramsGet
  induction ps with
  | nil =>
      simp [List.find?,
        show (k == k₂) = false from
          beq_eq_false_iff_ne.mpr fun heq => h heq.symm]
  | cons e es ih =>
      rw [List.filter_cons]
      by_cases he : e.1 = k
      · rw [if_neg (by simp [he])]
        rw [List.find?_cons_of_neg _ (by
          simp [he]
          exact fun heq => h heq.symm)]
        exact ih
      · rw [if_pos (by simp [he]), List.cons_append]
        by_cases he₃ : e.1 = k₂
        · rw [List.find?_cons_of_pos _ (by simp [he₃]),
            List.find?_cons_of_pos _ (by simp [he₃])]
        · rw [List.find?_cons_of_neg _ (by simp [he₃]),
            List.find?_cons_of_neg _ (by simp [he₃])]
          exact ih

/-- Characterization of what the encoder stores under a multi-select
key. -/
def encMulti (v : Option (List String)) : Option String :=
  match v with
  | some l => if l.length ≠ 0 then some (joinComma l) else none
  | none => none

/-- Characterization of what the encoder stores under a truthiness-guarded
key (q, lang). -/
def encTruthy (v : Option String) : Option String :=
  match v with
  | some s => if s ≠ "" then some s else none
  | none => none

/-- Characterization of what the encoder stores under the date key. -/
def encDate (v : Option String) : Option String :=
  match v with
  | some d => if d ≠ "" ∧ d ≠ "any" then some d else none
  | none => none

theorem paramsGet_setMultiParam_other (k k₂ : String) {ps : URLParams}
    {v : Option (List String)} (h : k ≠ k₂) :
    paramsGet (setMultiParam ps k₂ v) k = paramsGet ps k := by
  cases v with
  | none => rfl
  | some l =>
      simp only [setMultiParam]
      by_cases hl : l.length ≠ 0
      · rw [if_pos hl]
        exact paramsGet_paramsSet_other ps k₂ k (joinComma l) h
      · rw [if_neg hl]

theorem paramsGet_setTruthyParam_other (k k₂ : String) {ps : URLParams}
    {v : Option String} (h : k ≠ k₂) :
    paramsGet (setTruthyParam ps k₂ v) k = paramsGet ps k := by
  cases v with
  | none => rfl
  | some s =>
      simp only [setTruthyParam]
      by_cases hs : s ≠ ""
      · rw [if_pos hs]
        exact paramsGet_paramsSet_other ps k₂ k s h
      · rw [if_neg hs]

theorem paramsGet_setDateParam_other (k : String) {ps : URLParams}
    {v : Option String} (h : k ≠ "date") :
    paramsGet (setDateParam ps v) k = paramsGet ps k := by
  cases v with
  | none => rfl
  | some d =>
      simp only [setDateParam]
      by_cases hd : d ≠ "" ∧ d ≠ "any"
      · rw [if_pos hd]
        exact paramsGet_paramsSet_other ps "date" k d h
      · rw [if_neg hd]

theorem paramsGet_setMultiParam_self (ps : URLParams) (k : String)
    (v : Option (List String)) :
    paramsGet (setMultiParam ps k v) k =
      match encMulti v with
      | some s => some s
      | none => paramsGet ps k := by
  cases v with
  | none => rfl
  | some l =>
      simp only [setMultiParam, encMulti]
      by_cases hl : l.length ≠ 0
      · rw [if_pos hl, if_pos hl, paramsGet_paramsSet_self]
      · rw [if_neg hl, if_neg hl]

theorem paramsGet_setTruthyParam_self (ps : URLParams) (k : String)
    (v : Option String) :
    paramsGet (setTruthyParam ps k v) k =
      match encTruthy v with
      | some s => some s
      | none => paramsGet ps k := by
  cases v with
  | none => rfl
  | some s =>
      simp only [setTruthyParam, encTruthy]
      by_cases hs : s ≠ ""
      · rw [if_pos hs, if_pos hs, paramsGet_paramsSet_self]
      · rw [if_neg hs, if_neg hs]

theorem paramsGet_setDateParam_self (ps : URLParams) (v : Option String) :
    paramsGet (setDateParam ps v) "date" =
      match encDate v with
      | some s => some s
      | none => paramsGet ps "date" := by
  cases v with
  | none => rfl
  | some d =>
      simp only [setDateParam, encDate]
      by_cases hd : d ≠ "" ∧ d ≠ "any"
      · rw [if_pos hd, if_pos hd, paramsGet_paramsSet_self]
      · rw [if_neg hd, if_neg hd]

theorem encode_get_q (x : JobSearchFilters) :
    paramsGet (filtersToURLParams x) "q" = encTruthy x.query := by
  unfold filtersToURLParams
  rw [paramsGet_setDateParam_other "q" (by decide),
    paramsGet_setTruthyParam_other "q" "lang" (by decide),
    paramsGet_setMultiParam_other "q" "company" (by decide),
    paramsGet_setMultiParam_other "q" "func" (by decide),
    paramsGet_setMultiParam_other "q" "prov" (by decide),
    paramsGet_setMultiParam_other "q" "mode" (by decide),
    paramsGet_setMultiParam_other "q" "type" (by decide),
    paramsGet_setMultiParam_other "q" "exp" (by decide)]
  rw [paramsGet_setTruthyParam_self]
  cases henc : encTruthy x.query with
  | some s => rfl
  | none =>
      rfl

theorem encode_get_exp (x : JobSearchFilters) :
    paramsGet (filtersToURLParams x) "exp" = encMulti x.experienceLevel := by
  unfold filtersToURLParams
  rw [paramsGet_setDateParam_other "exp" (by decide),
    paramsGet_setTruthyParam_other "exp" "lang" (by decide),
    paramsGet_setMultiParam_other "exp" "company" (by decide),
    paramsGet_setMultiParam_other "exp" "func" (by decide),
    paramsGet_setMultiParam_other "exp" "prov" (by decide),
    paramsGet_setMultiParam_other "exp" "mode" (by decide),
    paramsGet_setMultiParam_other "exp" "type" (by decide)]
  rw [paramsGet_setMultiParam_self]
  cases henc : encMulti x.experienceLevel with
  | some s => rfl
  | none =>
      rw [paramsGet_setTruthyParam_other "exp" "q" (by decide)]
      rfl

theorem encode_get_type (x : JobSearchFilters) :
    paramsGet (filtersToURLParams x) "type" = encMulti x.employmentType := by
  unfold filtersToURLParams
  rw [paramsGet_setDateParam_other "type" (by decide),
    paramsGet_setTruthyParam_other "type" "lang" (by decide),
    paramsGet_setMultiParam_other "type" "company" (by decide),
    paramsGet_setMultiParam_other "type" "func" (by decide),
    paramsGet_setMultiParam_other "type" "prov" (by decide),
    paramsGet_setMultiParam_other "type" "mode" (by decide)]
  rw [paramsGet_setMultiParam_self]
  cases henc : encMulti x.employmentType with
  | some s => rfl
  | none =>
      rw [paramsGet_setMultiParam_other "type" "exp" (by decide),
        paramsGet_setTruthyParam_other "type" "q" (by decide)]
      rfl

theorem encode_get_mode (x : JobSearchFilters) :
    paramsGet (filtersToURLParams x) "mode" = encMulti x.workMode := by
  unfold filtersToURLParams
  rw [paramsGet_setDateParam_other "mode" (by decide),
    paramsGet_setTruthyParam_other "mode" "lang" (by decide),
    paramsGet_setMultiParam_other "mode" "company" (by decide),
    paramsGet_setMultiParam_other "mode" "func" (by decide),
    paramsGet_setMultiParam_other "mode" "prov" (by decide)]
  rw [paramsGet_setMultiParam_self]
  cases henc : encMulti x.workMode with
  | some s => rfl
  | none =>
      rw [paramsGet_setMultiParam_other "mode" "type" (by decide),
        paramsGet_setMultiParam_other "mode" "exp" (by decide),
        paramsGet_setTruthyParam_other "mode" "q" (by decide)]
      rfl

theorem encode_get_prov (x : JobSearchFilters) :
    paramsGet (filtersToURLParams x) "prov" = encMulti x.province := by
  unfold filtersToURLParams
  rw [paramsGet_setDateParam_other "prov" (by decide),
    paramsGet_setTruthyParam_other "prov" "lang" (by decide),
    paramsGet_setMultiParam_other "prov" "company" (by decide),
    paramsGet_setMultiParam_other "prov" "func" (by decide)]
  rw [paramsGet_setMultiParam_self]
  cases henc : encMulti x.province with
  | some s => rfl
  | none =>
      rw [paramsGet_setMultiParam_other "prov" "mode" (by decide),
        paramsGet_setMultiParam_other "prov" "type" (by decide),
        paramsGet_setMultiParam_other "prov" "exp" (by decide),
        paramsGet_setTruthyParam_other "prov" "q" (by decide)]
      rfl

theorem encode_get_func (x : JobSearchFilters) :
    paramsGet (filtersToURLParams x) "func" = encMulti x.jobFunction := by
  unfold filtersToURLParams
  rw [paramsGet_setDateParam_other "func" (by decide),
    paramsGet_setTruthyParam_other "func" "lang" (by decide),
    paramsGet_setMultiParam_other "func" "company" (by decide)]
  rw [paramsGet_setMultiParam_self]
  cases henc : encMulti x.jobFunction with
  | some s => rfl
  | none =>
      rw [paramsGet_setMultiParam_other "func" "prov" (by decide),
        paramsGet_setMultiParam_other "func" "mode" (by decide),
        paramsGet_setMultiParam_other "func" "type" (by decide),
        paramsGet_setMultiParam_other "func" "exp" (by decide),
        paramsGet_setTruthyParam_other "func" "q" (by decide)]
      rfl

theorem encode_get_company (x : JobSearchFilters) :
    paramsGet (filtersToURLParams x) "company" = encMulti x.company := by
  unfold filtersToURLParams
  rw [paramsGet_setDateParam_other "company" (by decide),
    paramsGet_setTruthyParam_other "company" "lang" (by decide)]
  rw [paramsGet_setMultiParam_self]
  cases henc : encMulti x.company with
  | some s => rfl
  | none =>
      rw [paramsGet_setMultiParam_other "company" "func" (by decide),
        paramsGet_setMultiParam_other "company" "prov" (by decide),
        paramsGet_setMultiParam_other "company" "mode" (by decide),
        paramsGet_setMultiParam_other "company" "type" (by decide),
        paramsGet_setMultiParam_other "company" "exp" (by decide),
        paramsGet_setTruthyParam_other "company" "q" (by decide)]
      rfl

theorem encode_get_lang (x : JobSearchFilters) :
    paramsGet (filtersToURLParams x) "lang" = encTruthy x.language := by
  unfold filtersToURLParams
  rw [paramsGet_setDateParam_other "lang" (by decide)]
  rw [paramsGet_setTruthyParam_self]
  cases henc : encTruthy x.language with
  | some s => rfl
  | none =>
      rw [paramsGet_setMultiParam_other "lang" "company" (by decide),
        paramsGet_setMultiParam_other "lang" "func" (by decide),
        paramsGet_setMultiParam_other "lang" "prov" (by decide),
        paramsGet_setMultiParam_other "lang" "mode" (by decide),
        paramsGet_setMultiParam_other "lang" "type" (by decide),
        paramsGet_setMultiParam_other "lang" "exp" (by decide),
        paramsGet_setTruthyParam_other "lang" "q" (by decide)]
      rfl

theorem encode_get_date (x : JobSearchFilters) :
    paramsGet (filtersToURLParams x) "date" = encDate x.datePreset := by
  unfold filtersToURLParams
  rw [paramsGet_setDateParam_self]
  cases henc : encDate x.datePreset with
  | some s => rfl
  | none =>
      rw [paramsGet_setTruthyParam_other "date" "lang" (by decide),
        paramsGet_setMultiParam_other "date" "company" (by decide),
        paramsGet_setMultiParam_other "date" "func" (by decide),
        paramsGet_setMultiParam_other "date" "prov" (by decide),
        paramsGet_setMultiParam_other "date" "mode" (by decide),
        paramsGet_setMultiParam_other "date" "type" (by decide),
        paramsGet_setMultiParam_other "date" "exp" (by decide),
        paramsGet_setTruthyParam_other "date" "q" (by decide)]
      rfl

/-- Well-formedness of one multi-select value for the codec: every selected
string is nonempty and comma-free (the persisted enum vocabularies and real
company names satisfy this). -/
abbrev wfList : Option (List String) → Prop
  | none => True
  | some l => ∀ s ∈ l, s ≠ "" ∧ ∀ c ∈ s.data, c ≠ ','

/-- A filter state the codec can faithfully carry: nonempty strings in the
multi-select lists without commas, and no explicitly-empty single-select
strings. -/
abbrev WFFilters (x : JobSearchFilters) : Prop :=
  x.query ≠ some "" ∧ wfList x.experienceLevel ∧
  wfList x.employmentType ∧ wfList x.workMode ∧ wfList x.province ∧
  wfList x.jobFunction ∧ wfList x.company ∧
  x.language ≠ some "" ∧ x.datePreset ≠ some ""

theorem getTruthy_of_eq_some {ps : URLParams} {k v : String}
    (h : paramsGet ps k = some v) :
    getTruthy ps k = if v ≠ "" then some v else none := by
  unfold getTruthy
  rw [h]

theorem getTruthy_of_eq_none {ps : URLParams} {k : String}
    (h : paramsGet ps k = none) : getTruthy ps k = none := by
  unfold getTruthy
  rw [h]

theorem multi_field_roundtrip (ps : URLParams) (k : String)
    (v : Option (List String)) (henc : paramsGet ps k = encMulti v)
    (hwf : wfList v) :
    (getTruthy ps k).map splitComma = dropEmptyList v := by
  cases v with
  | none =>
      simp only [encMulti] at henc
      rw [getTruthy_of_eq_none henc]
      rfl
  | some l =>
      cases l with
      | nil =>
          simp only [encMulti] at henc
          rw [if_neg (by simp)] at henc
          rw [getTruthy_of_eq_none henc]
          rfl
      | cons a as =>
          simp only [wfList] at hwf
          have hne : (a :: as) ≠ [] := by simp
          have hjoin : joinComma (a :: as) ≠ "" :=
            joinComma_ne_empty _ hne fun s hs => (hwf s hs).1
          have hsplit : splitComma (joinComma (a :: as)) = a :: as :=
            splitComma_joinComma _ hne fun s hs => (hwf s hs).2
          simp only [encMulti] at henc
          rw [if_pos (by simp)] at henc
          rw [getTruthy_of_eq_some henc, if_pos hjoin,
            Option.map_some', hsplit]
          rfl

theorem truthy_field_roundtrip (ps : URLParams) (k : String)
    (v : Option String) (henc : paramsGet ps k = encTruthy v)
    (hwf : v ≠ some "") :
    getTruthy ps k = v := by
  cases v with
  | none =>
      simp only [encTruthy] at henc
      rw [getTruthy_of_eq_none henc]
  | some s =>
      have hs : s ≠ "" := fun heq => hwf (heq ▸ rfl)
      simp only [encTruthy] at henc
      rw [if_pos hs] at henc
      rw [getTruthy_of_eq_some henc, if_pos hs]

/-- C2 (amended): for every well-formed filter state, decoding the encoded
query string yields the codec's normalization — empty multi-select arrays
and the 'any' date preset are dropped, the language is kept verbatim (the
source never compares it to the default). -/
theorem urlCodec_roundtrip_amended (x : JobSearchFilters)
    (hwf : WFFilters x) :
    urlParamsToFilters (filtersToURLParams x) = codecNormalize x := by
  obtain ⟨hq, hexp, htype, hmode, hprov, hfunc, hcomp, hlang, hdate⟩ := hwf
  simp only [urlParamsToFilters, codecNormalize, JobSearchFilters.mk.injEq]
  refine ⟨?_, ?_, ?_, ?_, ?_, ?_, ?_, ?_, ?_⟩
  · exact truthy_field_roundtrip _ _ _ (encode_get_q x) hq
  · exact multi_field_roundtrip _ _ _ (encode_get_exp x) hexp
  · exact multi_field_roundtrip _ _ _ (encode_get_type x) htype
  · exact multi_field_roundtrip _ _ _ (encode_get_mode x) hmode
  · exact multi_field_roundtrip _ _ _ (encode_get_prov x) hprov
  · exact multi_field_roundtrip _ _ _ (encode_get_func x) hfunc
  · exact multi_field_roundtrip _ _ _ (encode_get_company x) hcomp
  · exact truthy_field_roundtrip _ _ _ (encode_get_lang x) hlang
  · -- date preset
    have henc := encode_get_date x
    cases hdp : x.datePreset with
    | none =>
        rw [hdp] at henc
        simp only [encDate] at henc
        rw [getTruthy_of_eq_none henc]
        simp
    | some d =>
        rw [hdp] at henc
        simp only [encDate] at henc
        by_cases hany : d = "any"
        · subst hany
          rw [if_neg (by simp)] at henc
          rw [getTruthy_of_eq_none henc]
          simp
        · have hd : d ≠ "" := fun heq => hdate (hdp ▸ heq ▸ rfl)
          rw [if_pos ⟨hd, hany⟩] at henc
          rw [getTruthy_of_eq_some henc, if_pos hd]
          simp [hany]

def wfSample : JobSearchFilters :=
  { query := some "dev",
    experienceLevel := some ["senior", "mid-level"],
    province := some [],
    language := some "english",
    datePreset := some "any" }

/-- Witness for the amended C2 at a concrete well-formed state: the empty
province array and the 'any' preset are dropped, the default language is
kept. -/
theorem urlCodec_roundtrip_amended_witness :
    WFFilters wfSample ∧
    urlParamsToFilters (filtersToURLParams wfSample)
      = codecNormalize wfSample := by
  have hwf : WFFilters wfSample := by
    simp only [WFFilters, wfSample, wfList]
    refine ⟨by decide, ?_, trivial, trivial, ?_, trivial, trivial,
      by decide, by decide⟩ <;> decide
  exact ⟨hwf, urlCodec_roundtrip_amended wfSample hwf⟩
